import Mathlib

/-!
# nexus-cli: tag ordering and retention

A shallow embedding of `main.go` of nexus-cli: the two comparison strategies
returned by `getSortComparisonStrategy`, the `image tags` and `image delete`
commands (`listTagsByImage`, `deleteImage`), and the parts of the dependency
`github.com/blang/semver` that the semver strategy calls (`Make`, `LT`).

Go strings are Lean strings; where a function walks a string it walks its list
of characters.  Commands return the trace of their observable actions and the
way they ended.
-/

namespace NexusCli

/-! ## github.com/blang/semver

The dependency imported by `main.go`: its `Parse` (of which `Make` is an alias),
`NewPRVersion`, `Compare` and `LT`, following the library's `semver.go`.  `Parse`
is the strict parser: the tolerant one, which drops a leading "v", is
`ParseTolerant` and is not the one `main.go` calls. -/

namespace semver

/-- The constant `numbers` of the library: the decimal digits. -/
def numbers : List Char := "0123456789".toList

/-- The constant `alphas` of the library. -/
def alphas : List Char :=
  "abcdefghijklmnopqrstuvwxyzABCDEFGHIJKLMNOPQRSTUVWXYZ-".toList

/-- The constant `alphanum` of the library: `alphas + numbers`. -/
def alphanum : List Char := alphas ++ numbers

/-- The function `containsOnly(s, set)`: no character of `s` lies outside `set`. -/
def containsOnly (s : List Char) (set : List Char) : Bool :=
  s.all (fun r => set.contains r)

/-- The function `hasLeadingZeroes(s)`: `len(s) > 1 && s[0] == 0x30`. -/
def hasLeadingZeroes (s : List Char) : Bool :=
  match s with
  | c :: _ :: _ => c == '0'
  | _ => false

/-- Horner evaluation of a string of decimal digits. -/
def digitsValue (s : List Char) : Nat :=
  s.foldl (fun acc c => 10 * acc + (c.toNat - '0'.toNat)) 0

/-- The call `strconv.ParseUint(s, 10, 64)`: `none` stands for the error result
(empty input, a character that is not a decimal digit, or a value that does not
fit in 64 bits). -/
def parseUint64 (s : List Char) : Option Nat :=
  if s.isEmpty then none
  else if !(containsOnly s numbers) then none
  else if digitsValue s < 2 ^ 64 then some (digitsValue s) else none

/-- The call `strings.Index(s, sep)` for a one-character separator, as the pair
of the text before the first separator and the text after it. -/
def cut (sep : Char) : List Char → Option (List Char × List Char)
  | [] => none
  | c :: cs =>
    if c == sep then some ([], cs)
    else
      match cut sep cs with
      | some (a, b) => some (c :: a, b)
      | none => none

/-- The call `strings.Split(s, sep)` for a one-character separator. -/
def split (sep : Char) (s : List Char) : List (List Char) :=
  let r := s.foldr
    (fun c (acc : List Char × List (List Char)) =>
      if c == sep then ([], acc.1 :: acc.2) else (c :: acc.1, acc.2))
    ([], [])
  r.1 :: r.2

/-- The call `strings.SplitN(s, ".", 3)`: at most three parts, the last one
keeping the rest of the string unsplit. -/
def splitN3 (s : List Char) : List (List Char) :=
  match cut '.' s with
  | none => [s]
  | some (a, rest) =>
    match cut '.' rest with
    | none => [a, rest]
    | some (b, c) => [a, b, c]

/-- The struct `PRVersion`: one dot-separated part of a pre-release. -/
structure PRVersion where
  VersionStr : List Char
  VersionNum : Nat
  IsNum : Bool
  deriving DecidableEq, Repr

/-- The struct `Version`; the zero value `Version{}` is `Version.zero`. -/
structure Version where
  Major : Nat
  Minor : Nat
  Patch : Nat
  Pre : List PRVersion
  Build : List (List Char)
  deriving DecidableEq, Repr

/-- The zero value `Version{}`, returned next to every parse error. -/
def Version.zero : Version := ⟨0, 0, 0, [], []⟩

/-- The function `NewPRVersion(s)`; `none` stands for the error result. -/
def NewPRVersion (s : List Char) : Option PRVersion :=
  if s.isEmpty then none
  else if containsOnly s numbers then
    if hasLeadingZeroes s then none
    else
      match parseUint64 s with
      | none => none
      | some num => some ⟨[], num, true⟩
  else if containsOnly s alphanum then some ⟨s, 0, false⟩
  else none

/-- The loop of `Parse` over the pre-release parts: the first failing part
aborts the parse. -/
def parsePre : List (List Char) → Option (List PRVersion)
  | [] => some []
  | p :: ps =>
    match NewPRVersion p with
    | none => none
    | some v =>
      match parsePre ps with
      | none => none
      | some vs => some (v :: vs)

/-- The loop of `Parse` over the build meta data parts. -/
def parseBuild : List (List Char) → Option (List (List Char))
  | [] => some []
  | b :: bs =>
    if b.isEmpty then none
    else if !(containsOnly b alphanum) then none
    else
      match parseBuild bs with
      | none => none
      | some vs => some (b :: vs)

/-- One numeric component of `Parse` (major, minor or patch): only digits, no
leading zeroes, and a value accepted by `strconv.ParseUint`. -/
def parseNumber (s : List Char) : Option Nat :=
  if !(containsOnly s numbers) then none
  else if hasLeadingZeroes s then none
  else parseUint64 s

/-- The function `Parse(s)` of the library on the characters of `s`; `none`
stands for every `return Version{}, err`. -/
def Parse (s : List Char) : Option Version :=
  if s.isEmpty then none
  else
    match splitN3 s with
    | [p0, p1, p2] =>
      match parseNumber p0 with
      | none => none
      | some major =>
        match parseNumber p1 with
        | none => none
        | some minor =>
          let (patchStr1, build) :=
            match cut '+' p2 with
            | some (a, b) => (a, split '.' b)
            | none => (p2, [])
          let (patchStr, prerelease) :=
            match cut '-' patchStr1 with
            | some (a, b) => (a, split '.' b)
            | none => (patchStr1, [])
          match parseNumber patchStr with
          | none => none
          | some patch =>
            match parsePre prerelease with
            | none => none
            | some pre =>
              match parseBuild build with
              | none => none
              | some bld => some ⟨major, minor, patch, pre, bld⟩
    | _ => none

/-- The function `Make(s)`, an alias of `Parse`; `none` is the error result, in
which case the version returned to the caller is `Version{}`. -/
def Make (s : String) : Option Version := Parse s.toList

/-- Go's `<` on strings (byte-wise lexicographic, which on UTF-8 is the
lexicographic order of the code points). -/
def strLess : List Char → List Char → Bool
  | [], [] => false
  | [], _ :: _ => true
  | _ :: _, [] => false
  | a :: as, b :: bs =>
    if a.toNat < b.toNat then true
    else if b.toNat < a.toNat then false
    else strLess as bs

/-- The method `PRVersion.Compare`: -1, 0 or 1. -/
def PRVersion.Compare (v o : PRVersion) : Int :=
  if v.IsNum && !o.IsNum then -1
  else if !v.IsNum && o.IsNum then 1
  else if v.IsNum && o.IsNum then
    if v.VersionNum == o.VersionNum then 0
    else if v.VersionNum > o.VersionNum then 1
    else -1
  else
    if v.VersionStr == o.VersionStr then 0
    else if strLess o.VersionStr v.VersionStr then 1
    else -1

/-- The element-wise loop of `Version.Compare` over the two pre-release lists,
with the length comparison that follows it. -/
def comparePre : List PRVersion → List PRVersion → Int
  | [], [] => 0
  | [], _ :: _ => -1
  | _ :: _, [] => 1
  | a :: as, b :: bs =>
    let comp := PRVersion.Compare a b
    if comp == 0 then comparePre as bs
    else if comp == 1 then 1
    else -1

/-- The method `Version.Compare`: -1, 0 or 1; build meta data is ignored. -/
def Version.Compare (v o : Version) : Int :=
  if v.Major != o.Major then (if v.Major > o.Major then 1 else -1)
  else if v.Minor != o.Minor then (if v.Minor > o.Minor then 1 else -1)
  else if v.Patch != o.Patch then (if v.Patch > o.Patch then 1 else -1)
  else if v.Pre.length == 0 && o.Pre.length == 0 then 0
  else if v.Pre.length == 0 && o.Pre.length > 0 then 1
  else if v.Pre.length > 0 && o.Pre.length == 0 then -1
  else comparePre v.Pre o.Pre

/-- The method `Version.LT`: `v.Compare(o) == -1`. -/
def Version.LT (v o : Version) : Bool := v.Compare o == -1

end semver

/-! ## The comparison strategies -/

/-- Modelled from the spec: `extractNumberFromString`, called by the default
strategy and not part of `main.go`.  The first contiguous run of decimal digits
of the tag, read as a non-negative integer; 0 when the tag has no digit. -/
def extractNumberFromString (str : String) : Nat :=
  semver.digitsValue
    ((str.toList.dropWhile (fun c => !(semver.numbers.contains c))).takeWhile
      (fun c => semver.numbers.contains c))

/-- The Go type `Compare`: a less-than function on two tags. -/
abbrev Compare := String → String → Bool

/-- The closure assigned when `sort == "default"`. -/
def defaultCompareStringNumber : Compare := fun str1 str2 =>
  decide (extractNumberFromString str1 < extractNumberFromString str2)

/-- The closure assigned when `sort == "semver"`.  A tag that `semver.Make`
rejects is compared as `Version{}`; the diagnostic line printed in that case
does not influence the result and is left out. -/
def semverCompareStringNumber : Compare := fun str1 str2 =>
  if str1 == "latest" then false
  else if str2 == "latest" then true
  else
    let version1 := (semver.Make str1).getD semver.Version.zero
    let version2 := (semver.Make str2).getD semver.Version.zero
    version1.LT version2

/-- The function `getSortComparisonStrategy`.  The variable `compareStringNumber`
starts as the nil function value and is assigned only under the two `if`s, so
every other policy name yields nil, here `none`. -/
def getSortComparisonStrategy (sort : String) : Option Compare :=
  let compareStringNumber : Option Compare := none
  let compareStringNumber :=
    if sort == "default" then some defaultCompareStringNumber else compareStringNumber
  let compareStringNumber :=
    if sort == "semver" then some semverCompareStringNumber else compareStringNumber
  compareStringNumber

/-- Modelled from the spec: the insertion step of the Tag Sorter, which is not
part of `main.go`.  The tag is placed after the tags that are less than it. -/
def Compare.insert (cmp : Compare) (x : String) : List String → List String
  | [] => [x]
  | y :: ys => if cmp y x then y :: Compare.insert cmp x ys else x :: y :: ys

/-- Modelled from the spec: the Tag Sorter `Compare.Sort`, which is not part of
`main.go`: a standard comparison sort (a stable insertion sort) that puts the
tags in ascending order under the comparator, without removing, adding or
changing a tag. -/
def Compare.Sort (cmp : Compare) : List String → List String
  | [] => []
  | x :: xs => Compare.insert cmp x (Compare.Sort cmp xs)

/-- A list is ascending under a comparator when no later element is less than
an earlier one. -/
def Ascending (cmp : Compare) (l : List String) : Prop :=
  l.Pairwise (fun a b => cmp b a = false)

/-! ## The registry collaborator and the commands -/

/-- A Go slice of strings as seen by a slice expression: the `len` visible
elements, and the elements of the backing array between `len` and `cap`. -/
structure Slice where
  elems : List String
  spare : List String
  deriving DecidableEq, Repr

/-- The built-in `len`. -/
def Slice.len (s : Slice) : Int := s.elems.length

/-- The built-in `cap`. -/
def Slice.cap (s : Slice) : Int := s.elems.length + s.spare.length

/-- The slice expression `s[:hi]`, whose bound is `cap(s)`: `none` is the
run-time panic "slice bounds out of range".  The index is kept as a mathematical
integer: when `len(s) - keep` overflows a 64-bit `int` the wrapped index is
negative and the true one exceeds every capacity, and both panic. -/
def Slice.upTo (s : Slice) (hi : Int) : Option (List String) :=
  if hi < 0 ∨ s.cap < hi then none
  else some ((s.elems ++ s.spare).take hi.toNat)

/-- The package `registry` as the commands use it, over the registry state `σ`.
An error is its text; `none` is the nil error. -/
structure Registry (σ : Type) where
  NewRegistry : Except String σ
  ListTagsByImage : σ → String → σ × Slice × Option String
  DeleteImageByTag : σ → String → String → σ × Option String

/-- The flags of one invocation, as read through `c.String`, `c.Int`, `c.Bool`. -/
structure Context where
  name : String
  tag : String
  keep : Int
  dryRun : Bool
  sort : String
  deriving DecidableEq, Repr

/-- The observable actions of a command, in the order they happen. -/
inductive Event where
  /-- The call `fmt.Fprintf(c.App.Writer, msg)`. -/
  | writer (msg : String)
  /-- The call `cli.ShowSubcommandHelp(c)`. -/
  | ShowSubcommandHelp
  /-- The call `registry.NewRegistry()`. -/
  | NewRegistry
  /-- The call `r.ListTagsByImage(image)`. -/
  | ListTagsByImage (image : String)
  /-- The call `r.DeleteImageByTag(image, tag)`. -/
  | DeleteImageByTag (image tag : String)
  /-- The line "image:tag image would be deleted (Dry Run) ...". -/
  | printWouldBeDeleted (image tag : String)
  /-- The line "image:tag image will be deleted ...". -/
  | printWillBeDeleted (image tag : String)
  /-- The line "Only n images are available". -/
  | printOnlyAvailable (n : Nat)
  /-- The line printed for one tag by `image tags`. -/
  | printTag (tag : String)
  /-- The line "There are n images for image". -/
  | printCount (n : Nat) (image : String)
  deriving DecidableEq, Repr

/-- The way a command ends: `return nil`, `return cli.NewExitError(msg, code)`,
or a run-time panic. -/
inductive Outcome where
  | nil
  | exitError (msg : String) (code : Int)
  | panic (reason : String)
  deriving DecidableEq, Repr

/-- One run of a command. -/
structure Run where
  trace : List Event
  result : Outcome
  deriving DecidableEq, Repr

/-- The `for _, tag := range tags[:len(tags)-keep]` loop of `deleteImage`: the
value returned by `r.DeleteImageByTag` is discarded. -/
def deleteLoop {σ : Type} (r : Registry σ) (imgName : String) (dryRun : Bool) :
    List String → σ → List Event
  | [], _ => []
  | tag :: rest, s =>
    if dryRun then
      Event.printWouldBeDeleted imgName tag :: deleteLoop r imgName dryRun rest s
    else
      Event.printWillBeDeleted imgName tag :: Event.DeleteImageByTag imgName tag ::
        deleteLoop r imgName dryRun rest (r.DeleteImageByTag s imgName tag).1

/-- The function `deleteImage`. -/
def deleteImage {σ : Type} (r : Registry σ) (c : Context) : Run :=
  let imgName := c.name
  let tag := c.tag
  let keep := c.keep
  let dryRun := c.dryRun
  let sort := if c.sort != "semver" then "default" else c.sort
  if imgName == "" then
    ⟨[Event.writer "You should specify the image name\n", Event.ShowSubcommandHelp],
      Outcome.nil⟩
  else
    match r.NewRegistry with
    | Except.error err => ⟨[Event.NewRegistry], Outcome.exitError err 1⟩
    | Except.ok s0 =>
      if tag == "" then
        if keep == 0 then
          ⟨[Event.NewRegistry,
            Event.writer
              "You should either specify the tag or how many images you want to keep\n",
            Event.ShowSubcommandHelp], Outcome.nil⟩
        else
          let listed := r.ListTagsByImage s0 imgName
          let pre := [Event.NewRegistry, Event.ListTagsByImage imgName]
          match getSortComparisonStrategy sort with
          | none => ⟨pre, Outcome.panic "call of a nil comparison function"⟩
          | some compareStringNumber =>
            let tags : Slice :=
              ⟨Compare.Sort compareStringNumber listed.2.1.elems, listed.2.1.spare⟩
            match listed.2.2 with
            | some err => ⟨pre, Outcome.exitError err 1⟩
            | none =>
              if tags.len ≥ keep then
                match tags.upTo (tags.len - keep) with
                | none => ⟨pre, Outcome.panic "slice bounds out of range"⟩
                | some plan => ⟨pre ++ deleteLoop r imgName dryRun plan listed.1, Outcome.nil⟩
              else
                ⟨pre ++ [Event.printOnlyAvailable tags.elems.length], Outcome.nil⟩
      else
        match (r.DeleteImageByTag s0 imgName tag).2 with
        | some err =>
          ⟨[Event.NewRegistry, Event.DeleteImageByTag imgName tag], Outcome.exitError err 1⟩
        | none => ⟨[Event.NewRegistry, Event.DeleteImageByTag imgName tag], Outcome.nil⟩

/-- The function `listTagsByImage`. -/
def listTagsByImage {σ : Type} (r : Registry σ) (c : Context) : Run :=
  let imgName := c.name
  let sort := if c.sort != "semver" then "default" else c.sort
  match r.NewRegistry with
  | Except.error err => ⟨[Event.NewRegistry], Outcome.exitError err 1⟩
  | Except.ok s0 =>
    let help := if imgName == "" then [Event.ShowSubcommandHelp] else []
    let listed := r.ListTagsByImage s0 imgName
    let pre := Event.NewRegistry :: (help ++ [Event.ListTagsByImage imgName])
    match getSortComparisonStrategy sort with
    | none => ⟨pre, Outcome.panic "call of a nil comparison function"⟩
    | some compareStringNumber =>
      let tags := Compare.Sort compareStringNumber listed.2.1.elems
      match listed.2.2 with
      | some err => ⟨pre, Outcome.exitError err 1⟩
      | none =>
        ⟨pre ++ tags.map Event.printTag ++ [Event.printCount tags.length imgName],
          Outcome.nil⟩

/-! ## Reading a trace -/

/-- The `(image, tag)` arguments of the `DeleteImageByTag` calls of a trace. -/
def deleteCalls : List Event → List (String × String)
  | [] => []
  | Event.DeleteImageByTag image tag :: es => (image, tag) :: deleteCalls es
  | _ :: es => deleteCalls es

/-- The `(image, tag)` pairs reported as "would be deleted (Dry Run)". -/
def dryRunReports : List Event → List (String × String)
  | [] => []
  | Event.printWouldBeDeleted image tag :: es => (image, tag) :: dryRunReports es
  | _ :: es => dryRunReports es

/-! ## Registries used in the concrete runs -/

/-- A registry whose state counts the delete calls made so far: it lists the
given slice and fails the delete calls selected by `fails`. -/
def countingRegistry (tags : Slice) (fails : Nat → Bool) : Registry Nat where
  NewRegistry := Except.ok 0
  ListTagsByImage := fun s _ => (s, tags, none)
  DeleteImageByTag := fun s _ _ =>
    (s + 1, if fails s then some "HTTP Code: 500" else none)

/-- The comparator the commands end up with for the value of `--sort`: the
semver strategy for "semver", the default strategy for everything else. -/
def strategyOf (sort : String) : Compare :=
  if sort = "semver" then semverCompareStringNumber else defaultCompareStringNumber

/-- The tags a run of `delete` acted upon: the delete calls of a real run, the
"would be deleted" reports of a dry run. -/
def actedUpon (dryRun : Bool) (trace : List Event) : List (String × String) :=
  if dryRun then dryRunReports trace else deleteCalls trace

/-! ## Lemmas on traces and on the delete loop -/

theorem deleteCalls_append (a b : List Event) :
    deleteCalls (a ++ b) = deleteCalls a ++ deleteCalls b := by
  induction a with
  | nil => rfl
  | cons e es ih => cases e <;> simp [deleteCalls, ih]

theorem dryRunReports_append (a b : List Event) :
    dryRunReports (a ++ b) = dryRunReports a ++ dryRunReports b := by
  induction a with
  | nil => rfl
  | cons e es ih => cases e <;> simp [dryRunReports, ih]

theorem deleteCalls_loop_real {σ : Type} (r : Registry σ) (imgName : String)
    (plan : List String) (s : σ) :
    deleteCalls (deleteLoop r imgName false plan s) = plan.map (fun t => (imgName, t)) := by
  induction plan generalizing s with
  | nil => rfl
  | cons t ts ih => simp [deleteLoop, deleteCalls, ih]

theorem deleteCalls_loop_dry {σ : Type} (r : Registry σ) (imgName : String)
    (plan : List String) (s : σ) :
    deleteCalls (deleteLoop r imgName true plan s) = [] := by
  induction plan generalizing s with
  | nil => rfl
  | cons t ts ih => simp [deleteLoop, deleteCalls, ih]

theorem dryRunReports_loop_dry {σ : Type} (r : Registry σ) (imgName : String)
    (plan : List String) (s : σ) :
    dryRunReports (deleteLoop r imgName true plan s) = plan.map (fun t => (imgName, t)) := by
  induction plan generalizing s with
  | nil => rfl
  | cons t ts ih => simp [deleteLoop, dryRunReports, ih]

theorem dryRunReports_loop_real {σ : Type} (r : Registry σ) (imgName : String)
    (plan : List String) (s : σ) :
    dryRunReports (deleteLoop r imgName false plan s) = [] := by
  induction plan generalizing s with
  | nil => rfl
  | cons t ts ih => simp [deleteLoop, dryRunReports, ih]

theorem actedUpon_loop {σ : Type} (r : Registry σ) (imgName : String) (dryRun : Bool)
    (plan : List String) (s : σ) :
    actedUpon dryRun (deleteLoop r imgName dryRun plan s)
      = plan.map (fun t => (imgName, t)) := by
  cases dryRun
  · simp [actedUpon, deleteCalls_loop_real]
  · simp [actedUpon, dryRunReports_loop_dry]

/-! ## Lemmas on the sorter -/

theorem Compare.insert_perm (cmp : Compare) (x : String) (l : List String) :
    (Compare.insert cmp x l).Perm (x :: l) := by
  induction l with
  | nil => exact List.Perm.refl _
  | cons y ys ih =>
    simp only [Compare.insert]
    split
    · exact ((List.Perm.cons y ih).trans (List.Perm.swap x y ys))
    · exact List.Perm.refl _

theorem Compare.Sort_perm (cmp : Compare) (l : List String) :
    (Compare.Sort cmp l).Perm l := by
  induction l with
  | nil => exact List.Perm.refl _
  | cons x xs ih =>
    exact (Compare.insert_perm cmp x _).trans (List.Perm.cons x ih)

theorem Compare.Sort_length (cmp : Compare) (l : List String) :
    (Compare.Sort cmp l).length = l.length :=
  (Compare.Sort_perm cmp l).length_eq

/-! ## The strategy reached by the commands -/

theorem getSortComparisonStrategy_normalised (sort : String) :
    getSortComparisonStrategy (if sort != "semver" then "default" else sort)
      = some (strategyOf sort) := by
  by_cases h : sort = "semver"
  · subst h
    simp [getSortComparisonStrategy, strategyOf]
  · simp [getSortComparisonStrategy, strategyOf, h]

/-- The run of `deleteImage` in keep mode once the registry has listed the
tags: the loop runs over the first `n - keep` sorted tags when `n ≥ keep`. -/
theorem deleteImage_keep_eq {σ : Type} (r : Registry σ) (c : Context) (s0 s1 : σ)
    (listed : Slice) (hname : c.name ≠ "") (htag : c.tag = "") (hkeep : 0 < c.keep)
    (hreg : r.NewRegistry = Except.ok s0)
    (hlist : r.ListTagsByImage s0 c.name = (s1, listed, none)) :
    deleteImage r c =
      ⟨[Event.NewRegistry, Event.ListTagsByImage c.name] ++
        (if c.keep ≤ (listed.elems.length : Int) then
          deleteLoop r c.name c.dryRun
            ((Compare.Sort (strategyOf c.sort) listed.elems).take
              (listed.elems.length - c.keep.toNat)) s1
        else [Event.printOnlyAvailable listed.elems.length]), Outcome.nil⟩ := by
  have hk0 : c.keep ≠ 0 := by omega
  simp only [deleteImage, getSortComparisonStrategy_normalised, hreg, hlist, htag]
  simp [hname, hk0, Slice.len, Slice.upTo, Slice.cap, Compare.Sort_length]
  by_cases hle : c.keep ≤ (listed.elems.length : Int)
  · have h1 : ¬ ((listed.elems.length : Int) < c.keep ∨
        (listed.elems.length : Int) + listed.spare.length < listed.elems.length - c.keep) := by
      omega
    have h2 : ((listed.elems.length : Int) - c.keep).toNat
        = listed.elems.length - c.keep.toNat := by omega
    have h3 : listed.elems.length - c.keep.toNat
        ≤ (Compare.Sort (strategyOf c.sort) listed.elems).length := by
      rw [Compare.Sort_length]; omega
    simp only [hle, h1, h2, if_true, if_false, List.take_append_of_le_length h3]
  · simp [hle]

theorem deleteCalls_keep_head (image : String) (es : List Event) :
    deleteCalls (Event.NewRegistry :: Event.ListTagsByImage image :: es) = deleteCalls es :=
  rfl

theorem dryRunReports_keep_head (image : String) (es : List Event) :
    dryRunReports (Event.NewRegistry :: Event.ListTagsByImage image :: es)
      = dryRunReports es :=
  rfl

theorem actedUpon_keep_head (dryRun : Bool) (image : String) (es : List Event) :
    actedUpon dryRun (Event.NewRegistry :: Event.ListTagsByImage image :: es)
      = actedUpon dryRun es := by
  cases dryRun <;> simp [actedUpon, deleteCalls, dryRunReports]

/-! ## "latest" under the semver strategy -/

theorem semver_latest_left (x : String) : semverCompareStringNumber "latest" x = false := by
  simp [semverCompareStringNumber]

theorem semver_latest_right (x : String) (h : x ≠ "latest") :
    semverCompareStringNumber x "latest" = true := by
  simp [semverCompareStringNumber, h]

theorem Compare.insert_ne_nil (cmp : Compare) (x : String) (l : List String) :
    Compare.insert cmp x l ≠ [] := by
  cases l with
  | nil => simp [Compare.insert]
  | cons y ys =>
    simp only [Compare.insert]
    split <;> simp

/-- Inserting a tag leaves the last tag in place when the last tag is not less
than the inserted one. -/
theorem Compare.insert_getLast (cmp : Compare) (x z : String) (l : List String)
    (hz : l.getLast? = some z) (hcmp : cmp z x = false) :
    (Compare.insert cmp x l).getLast? = some z := by
  induction l with
  | nil => simp at hz
  | cons y ys ih =>
    simp only [Compare.insert]
    by_cases hy : cmp y x = true
    · rw [if_pos hy]
      cases ys with
      | nil =>
        simp only [List.getLast?_singleton, Option.some.injEq] at hz
        rw [hz, hcmp] at hy
        exact absurd hy (by simp)
      | cons y2 ys2 =>
        rw [List.getLast?_cons_cons] at hz
        have h := ih hz
        have hne := Compare.insert_ne_nil cmp x (y2 :: ys2)
        cases hins : Compare.insert cmp x (y2 :: ys2) with
        | nil => exact absurd hins hne
        | cons w ws =>
          rw [hins] at h
          rw [List.getLast?_cons_cons]
          exact h
    · rw [if_neg hy, List.getLast?_cons_cons]
      exact hz

/-- A tag that every tag of the list is less than is inserted at the end. -/
theorem Compare.insert_all_less (cmp : Compare) (x : String) (l : List String)
    (h : ∀ y ∈ l, cmp y x = true) : Compare.insert cmp x l = l ++ [x] := by
  induction l with
  | nil => rfl
  | cons y ys ih =>
    simp only [Compare.insert]
    rw [if_pos (h y (List.mem_cons_self y ys)),
      ih (fun w hw => h w (List.mem_cons_of_mem y hw))]
    rfl

theorem Sort_semver_getLast (tags : List String) (h : "latest" ∈ tags) :
    (Compare.Sort semverCompareStringNumber tags).getLast? = some "latest" := by
  induction tags with
  | nil => simp at h
  | cons x xs ih =>
    simp only [Compare.Sort]
    by_cases hxs : "latest" ∈ xs
    · exact Compare.insert_getLast _ x "latest" _ (ih hxs) (semver_latest_left x)
    · have hx : x = "latest" := by
        rcases List.mem_cons.mp h with h1 | h1
        · exact h1.symm
        · exact absurd h1 hxs
      subst hx
      rw [Compare.insert_all_less]
      · simp
      · intro y hy
        apply semver_latest_right
        intro hyl
        subst hyl
        exact hxs ((Compare.Sort_perm _ xs).mem_iff.mp hy)

/-- In every ascending arrangement of a list that contains "latest", the last
tag is "latest". -/
theorem ascending_semver_getLast (tags out : List String) (hperm : out.Perm tags)
    (hasc : Ascending semverCompareStringNumber out) (h : "latest" ∈ tags) :
    out.getLast? = some "latest" := by
  have hmem : "latest" ∈ out := hperm.mem_iff.mpr h
  have hne : out ≠ [] := List.ne_nil_of_mem hmem
  rw [List.getLast?_eq_getLast out hne]
  congr 1
  by_contra hz
  have hsplit := List.dropLast_append_getLast hne
  rw [← hsplit] at hmem hasc
  rcases List.mem_append.mp hmem with h1 | h1
  · have hp := (List.pairwise_append.mp hasc).2.2 "latest" h1 (out.getLast hne)
      (List.mem_singleton_self _)
    rw [semver_latest_right _ hz] at hp
    exact absurd hp (by simp)
  · exact hz (List.mem_singleton.mp h1).symm

/-- When the sorted list has at most one "latest", no proper prefix of it
contains "latest". -/
theorem latest_not_in_taken (tags : List String) (k : Nat)
    (hcount : tags.count "latest" ≤ 1) (hk : k < tags.length ∨ "latest" ∉ tags) :
    "latest" ∉ (Compare.Sort semverCompareStringNumber tags).take k := by
  intro hmem
  have hperm := Compare.Sort_perm semverCompareStringNumber tags
  have hin : "latest" ∈ tags := hperm.mem_iff.mp (List.mem_of_mem_take hmem)
  have hk2 : k < tags.length := by
    rcases hk with h1 | h1
    · exact h1
    · exact absurd hin h1
  have hlast := Sort_semver_getLast tags hin
  have hne : Compare.Sort semverCompareStringNumber tags ≠ [] := by
    intro h0
    rw [h0] at hlast
    simp at hlast
  have hsplit := List.dropLast_append_getLast hne
  rw [List.getLast?_eq_getLast _ hne] at hlast
  have hl : (Compare.Sort semverCompareStringNumber tags).getLast hne = "latest" :=
    Option.some.inj hlast
  rw [hl] at hsplit
  have hlen : (Compare.Sort semverCompareStringNumber tags).dropLast.length
      = tags.length - 1 := by
    rw [List.length_dropLast, Compare.Sort_length]
  have hcount2 : (Compare.Sort semverCompareStringNumber tags).count "latest" ≤ 1 := by
    rw [hperm.count_eq]
    exact hcount
  rw [← hsplit] at hmem hcount2
  rw [List.take_append_of_le_length (by omega)] at hmem
  have hin2 : "latest" ∈ (Compare.Sort semverCompareStringNumber tags).dropLast :=
    List.mem_of_mem_take hmem
  have hpos := List.count_pos_iff.mpr hin2
  rw [List.count_append] at hcount2
  simp at hcount2
  omega

/-! ## The number extracted from a tag -/

theorem dropWhile_nondigit_append (pre tail : List Char)
    (hpre : ∀ ch ∈ pre, ch ∉ semver.numbers) :
    (pre ++ tail).dropWhile (fun c => !(semver.numbers.contains c))
      = tail.dropWhile (fun c => !(semver.numbers.contains c)) := by
  induction pre with
  | nil => rfl
  | cons p ps ih =>
    have hp : semver.numbers.contains p = false := by
      simpa using hpre p (List.mem_cons_self p ps)
    simp only [List.cons_append, List.dropWhile_cons, hp, Bool.not_false, if_true]
    exact ih (fun ch hch => hpre ch (List.mem_cons_of_mem p hch))

theorem takeWhile_digit_append (run rest : List Char)
    (hrun : ∀ ch ∈ run, ch ∈ semver.numbers)
    (hrest : ∀ ch, rest.head? = some ch → ch ∉ semver.numbers) :
    (run ++ rest).takeWhile (fun c => semver.numbers.contains c) = run := by
  induction run with
  | nil =>
    cases rest with
    | nil => rfl
    | cons q qs =>
      have hq : q ∉ semver.numbers := hrest q rfl
      simp [List.takeWhile_cons, hq]
  | cons p ps ih =>
    have hp : semver.numbers.contains p = true := by
      simpa using hrun p (List.mem_cons_self p ps)
    simp only [List.cons_append, List.takeWhile_cons, hp, if_true]
    rw [ih (fun ch hch => hrun ch (List.mem_cons_of_mem p hch))]

theorem extractNumberFromString_run (pre run rest : List Char)
    (hpre : ∀ ch ∈ pre, ch ∉ semver.numbers) (hne : run ≠ [])
    (hrun : ∀ ch ∈ run, ch ∈ semver.numbers)
    (hrest : ∀ ch, rest.head? = some ch → ch ∉ semver.numbers) :
    extractNumberFromString (String.mk (pre ++ run ++ rest)) = semver.digitsValue run := by
  unfold extractNumberFromString
  have h0 : (String.mk (pre ++ run ++ rest)).toList = pre ++ (run ++ rest) := by
    simp [String.toList]
  rw [h0, dropWhile_nondigit_append pre (run ++ rest) hpre]
  cases run with
  | nil => exact absurd rfl hne
  | cons p ps =>
    have hp : p ∈ semver.numbers := hrun p (List.mem_cons_self p ps)
    have hd : ((p :: ps) ++ rest).dropWhile (fun c => !(semver.numbers.contains c))
        = (p :: ps) ++ rest := by
      simp [List.dropWhile_cons, hp]
    rw [hd, takeWhile_digit_append (p :: ps) rest hrun hrest]

theorem extractNumberFromString_no_digit (str : String)
    (h : ∀ ch ∈ str.toList, ch ∉ semver.numbers) : extractNumberFromString str = 0 := by
  unfold extractNumberFromString
  have h1 := dropWhile_nondigit_append str.toList [] h
  simp only [List.append_nil] at h1
  rw [h1]
  rfl

/-! ## The claims -/

/-- C1: in the keep branch of `deleteImage` (no explicit tag, keep > 0, the
registry has returned a tag list of length n), the tags acted upon (deleted, or
reported under dry-run) are exactly the first n - keep tags of the sorted list,
in sorted order, when n ≥ keep, and none when n < keep; so at least min(n, keep)
tags are left untouched. -/
theorem C1_keep_branch_acts_on_oldest_tags {σ : Type} (r : Registry σ) (c : Context)
    (s0 s1 : σ) (listed : Slice) (hname : c.name ≠ "") (htag : c.tag = "")
    (hkeep : 0 < c.keep) (hreg : r.NewRegistry = Except.ok s0)
    (hlist : r.ListTagsByImage s0 c.name = (s1, listed, none)) :
    (c.keep ≤ (listed.elems.length : Int) →
      actedUpon c.dryRun (deleteImage r c).trace =
        ((Compare.Sort (strategyOf c.sort) listed.elems).take
          (listed.elems.length - c.keep.toNat)).map (fun t => (c.name, t))) ∧
    ((listed.elems.length : Int) < c.keep →
      actedUpon c.dryRun (deleteImage r c).trace = []) ∧
    (actedUpon c.dryRun (deleteImage r c).trace).length
      + min listed.elems.length c.keep.toNat ≤ listed.elems.length := by
  rw [deleteImage_keep_eq r c s0 s1 listed hname htag hkeep hreg hlist]
  simp only [List.cons_append, List.nil_append, actedUpon_keep_head]
  by_cases hle : c.keep ≤ (listed.elems.length : Int)
  · rw [if_pos hle, actedUpon_loop]
    refine ⟨fun _ => rfl, fun h => absurd h (by omega), ?_⟩
    simp only [List.length_map, List.length_take, Compare.Sort_length]
    omega
  · rw [if_neg hle]
    have hnil : actedUpon c.dryRun [Event.printOnlyAvailable listed.elems.length] = [] := by
      cases c.dryRun <;> rfl
    refine ⟨fun h => absurd h hle, fun _ => hnil, ?_⟩
    rw [hnil]
    simp only [List.length_nil]
    omega

theorem C1_keep_branch_acts_on_oldest_tags_witness :
    actedUpon false
      (deleteImage (countingRegistry ⟨["3", "1", "2", "4"], []⟩ (fun _ => false))
        ⟨"img", "", 2, false, ""⟩).trace = [("img", "1"), ("img", "2")] :=
  ((C1_keep_branch_acts_on_oldest_tags
      (countingRegistry ⟨["3", "1", "2", "4"], []⟩ (fun _ => false))
      ⟨"img", "", 2, false, ""⟩ 0 0 ⟨["3", "1", "2", "4"], []⟩
      (by decide) rfl (by decide) rfl rfl).1 (by decide)).trans (by decide)

/-- C2 (the code at the failing input): with an explicit tag, `deleteImage`
does not consult the dry-run flag and issues the `DeleteImageByTag` call. -/
theorem C2_dry_run_with_explicit_tag_deletes :
    deleteImage (countingRegistry ⟨["v1", "v2"], []⟩ (fun _ => false))
        ⟨"img", "v1", 0, true, ""⟩
      = ⟨[Event.NewRegistry, Event.DeleteImageByTag "img" "v1"], Outcome.nil⟩ := by
  decide

/-- C3 (the code at the failing input): in keep mode every `DeleteImageByTag`
call fails, yet the loop goes on over all planned tags and the command returns
nil. -/
theorem C3_failed_delete_is_ignored :
    deleteImage (countingRegistry ⟨["1", "2", "3"], []⟩ (fun _ => true))
        ⟨"img", "", 1, false, ""⟩
      = ⟨[Event.NewRegistry, Event.ListTagsByImage "img",
          Event.printWillBeDeleted "img" "1", Event.DeleteImageByTag "img" "1",
          Event.printWillBeDeleted "img" "2", Event.DeleteImageByTag "img" "2"],
        Outcome.nil⟩ := by
  decide

/-- C4: in keep mode (no explicit tag, keep > 0), for the same registry, image
name, keep and sort policy, the dry run reports exactly the tags the real run
passes to `DeleteImageByTag`, in the same order, and issues no delete call; with
5 listed tags and keep = 2 the report is the 3 first tags of the sorted list. -/
theorem C4_dry_run_reports_what_real_run_deletes {σ : Type} (r : Registry σ)
    (c : Context) (htag : c.tag = "") (hkeep : 0 < c.keep) :
    dryRunReports (deleteImage r ⟨c.name, c.tag, c.keep, true, c.sort⟩).trace
      = deleteCalls (deleteImage r ⟨c.name, c.tag, c.keep, false, c.sort⟩).trace ∧
    deleteCalls (deleteImage r ⟨c.name, c.tag, c.keep, true, c.sort⟩).trace = [] ∧
    (∀ (s0 s1 : σ) (listed : Slice), c.name ≠ "" → r.NewRegistry = Except.ok s0 →
      r.ListTagsByImage s0 c.name = (s1, listed, none) →
      listed.elems.length = 5 → c.keep = 2 →
      dryRunReports (deleteImage r ⟨c.name, c.tag, c.keep, true, c.sort⟩).trace
        = ((Compare.Sort (strategyOf c.sort) listed.elems).take 3).map
            (fun t => (c.name, t))) := by
  have hk0 : c.keep ≠ 0 := by omega
  refine ⟨?_, ?_, ?_⟩
  · simp only [deleteImage, getSortComparisonStrategy_normalised, htag]
    by_cases hname : c.name = ""
    · simp [hname, deleteCalls, dryRunReports]
    · cases hreg : r.NewRegistry with
      | error e => simp [hname, deleteCalls, dryRunReports]
      | ok s0 =>
        simp only [hname, hk0, beq_self_eq_true, if_true, if_false, beq_iff_eq]
        cases hlist : (r.ListTagsByImage s0 c.name).2.2 with
        | some e => simp [deleteCalls, dryRunReports]
        | none =>
          simp only []
          split
          · split
            · simp [deleteCalls, dryRunReports]
            · simp [deleteCalls, dryRunReports, deleteCalls_append, dryRunReports_append,
                deleteCalls_loop_real, dryRunReports_loop_dry]
          · simp [deleteCalls, dryRunReports]
  · simp only [deleteImage, getSortComparisonStrategy_normalised, htag]
    by_cases hname : c.name = ""
    · simp [hname, deleteCalls]
    · cases hreg : r.NewRegistry with
      | error e => simp [hname, deleteCalls]
      | ok s0 =>
        simp only [hname, hk0, beq_self_eq_true, if_true, if_false, beq_iff_eq]
        cases hlist : (r.ListTagsByImage s0 c.name).2.2 with
        | some e => simp [deleteCalls]
        | none =>
          simp only []
          split
          · split
            · simp [deleteCalls]
            · simp [deleteCalls, deleteCalls_append, deleteCalls_loop_dry]
          · simp [deleteCalls]
  · intro s0 s1 listed hname hreg hlist hlen h2
    rw [deleteImage_keep_eq r ⟨c.name, c.tag, c.keep, true, c.sort⟩ s0 s1 listed
      hname htag hkeep hreg hlist]
    simp [hlen, h2, dryRunReports, dryRunReports_loop_dry]

theorem C4_dry_run_reports_what_real_run_deletes_witness :
    dryRunReports
        (deleteImage (countingRegistry ⟨["5", "3", "1", "2", "4"], []⟩ (fun _ => false))
          ⟨"img", "", 2, true, ""⟩).trace
      = deleteCalls
        (deleteImage (countingRegistry ⟨["5", "3", "1", "2", "4"], []⟩ (fun _ => false))
          ⟨"img", "", 2, false, ""⟩).trace :=
  (C4_dry_run_reports_what_real_run_deletes
    (countingRegistry ⟨["5", "3", "1", "2", "4"], []⟩ (fun _ => false))
    ⟨"img", "", 2, true, ""⟩ rfl (by decide)).1

/-- C5: the comparator returned for "semver" never puts "latest" before
anything, and puts every tag other than "latest" before "latest", whatever the
tag is. -/
theorem C5_semver_latest_is_greatest :
    ∃ less : Compare, getSortComparisonStrategy "semver" = some less ∧
      ∀ x : String, less "latest" x = false ∧ less x "latest" = !(x == "latest") := by
  refine ⟨semverCompareStringNumber, by simp [getSortComparisonStrategy], fun x => ?_⟩
  by_cases h : x = "latest"
  · subst h
    simp [semverCompareStringNumber]
  · simp [semverCompareStringNumber, h]

/-- C6 (counterexample): for the policy names "foo" and "" the function
`getSortComparisonStrategy` returns the nil function, not a comparator. -/
theorem C6_unknown_policy_yields_nil :
    getSortComparisonStrategy "foo" = none ∧ getSortComparisonStrategy "" = none := by
  constructor <;> simp [getSortComparisonStrategy]

/-- C6 (amended): `getSortComparisonStrategy` returns the semver comparator for
"semver", the default comparator for "default" and the nil function for every
other policy name; `deleteImage` and `listTagsByImage` replace every policy name
other than "semver" by "default" before they call it, so both commands behave
for any other name as for "default" and never end in a call of the nil
function: for every name other than "semver" the tags are printed by
`listTagsByImage`, and the deletion plan is taken by `deleteImage`, from the
list sorted with the default comparator, and for "semver" from the list sorted
with the semver comparator. -/
theorem C6_strategy_dispatch :
    getSortComparisonStrategy "semver" = some semverCompareStringNumber ∧
    getSortComparisonStrategy "default" = some defaultCompareStringNumber ∧
    (∀ sort : String, sort ≠ "semver" → sort ≠ "default" →
      getSortComparisonStrategy sort = none) ∧
    (∀ (σ : Type) (r : Registry σ) (c : Context), c.sort ≠ "semver" →
      deleteImage r c = deleteImage r ⟨c.name, c.tag, c.keep, c.dryRun, "default"⟩ ∧
      listTagsByImage r c
        = listTagsByImage r ⟨c.name, c.tag, c.keep, c.dryRun, "default"⟩) ∧
    (∀ (σ : Type) (r : Registry σ) (c : Context),
      (deleteImage r c).result ≠ Outcome.panic "call of a nil comparison function" ∧
      (listTagsByImage r c).result
        ≠ Outcome.panic "call of a nil comparison function") ∧
    (∀ (σ : Type) (r : Registry σ) (c : Context) (s0 s1 : σ) (listed : Slice),
      c.sort ≠ "semver" → r.NewRegistry = Except.ok s0 →
      r.ListTagsByImage s0 c.name = (s1, listed, none) →
      listTagsByImage r c =
        ⟨Event.NewRegistry ::
            ((if c.name = "" then [Event.ShowSubcommandHelp] else [])
              ++ [Event.ListTagsByImage c.name])
          ++ (Compare.Sort defaultCompareStringNumber listed.elems).map Event.printTag
          ++ [Event.printCount
                (Compare.Sort defaultCompareStringNumber listed.elems).length c.name],
          Outcome.nil⟩) ∧
    (∀ (σ : Type) (r : Registry σ) (c : Context) (s0 s1 : σ) (listed : Slice),
      c.sort = "semver" → r.NewRegistry = Except.ok s0 →
      r.ListTagsByImage s0 c.name = (s1, listed, none) →
      listTagsByImage r c =
        ⟨Event.NewRegistry ::
            ((if c.name = "" then [Event.ShowSubcommandHelp] else [])
              ++ [Event.ListTagsByImage c.name])
          ++ (Compare.Sort semverCompareStringNumber listed.elems).map Event.printTag
          ++ [Event.printCount
                (Compare.Sort semverCompareStringNumber listed.elems).length c.name],
          Outcome.nil⟩) ∧
    (∀ (σ : Type) (r : Registry σ) (c : Context) (s0 s1 : σ) (listed : Slice),
      c.sort ≠ "semver" → c.name ≠ "" → c.tag = "" → 0 < c.keep →
      r.NewRegistry = Except.ok s0 →
      r.ListTagsByImage s0 c.name = (s1, listed, none) →
      deleteImage r c =
        ⟨[Event.NewRegistry, Event.ListTagsByImage c.name] ++
          (if c.keep ≤ (listed.elems.length : Int) then
            deleteLoop r c.name c.dryRun
              ((Compare.Sort defaultCompareStringNumber listed.elems).take
                (listed.elems.length - c.keep.toNat)) s1
          else [Event.printOnlyAvailable listed.elems.length]), Outcome.nil⟩) ∧
    (∀ (σ : Type) (r : Registry σ) (c : Context) (s0 s1 : σ) (listed : Slice),
      c.sort = "semver" → c.name ≠ "" → c.tag = "" → 0 < c.keep →
      r.NewRegistry = Except.ok s0 →
      r.ListTagsByImage s0 c.name = (s1, listed, none) →
      deleteImage r c =
        ⟨[Event.NewRegistry, Event.ListTagsByImage c.name] ++
          (if c.keep ≤ (listed.elems.length : Int) then
            deleteLoop r c.name c.dryRun
              ((Compare.Sort semverCompareStringNumber listed.elems).take
                (listed.elems.length - c.keep.toNat)) s1
          else [Event.printOnlyAvailable listed.elems.length]), Outcome.nil⟩) := by
  refine ⟨by simp [getSortComparisonStrategy], by simp [getSortComparisonStrategy],
    ?_, ?_, ?_, ?_, ?_, ?_, ?_⟩
  · intro sort h1 h2
    simp [getSortComparisonStrategy, h1, h2]
  · intro σ r c h
    constructor
    · simp [deleteImage, h]
    · simp [listTagsByImage, h]
  · intro σ r c
    constructor
    · simp only [deleteImage, getSortComparisonStrategy_normalised]
      repeat (first | split | simp)
    · simp only [listTagsByImage, getSortComparisonStrategy_normalised]
      repeat (first | split | simp)
  · intro σ r c s0 s1 listed hsort hreg hlist
    simp only [listTagsByImage, getSortComparisonStrategy_normalised, hreg, hlist]
    simp [strategyOf, hsort]
  · intro σ r c s0 s1 listed hsort hreg hlist
    simp only [listTagsByImage, getSortComparisonStrategy_normalised, hreg, hlist]
    simp [strategyOf, hsort]
  · intro σ r c s0 s1 listed hsort hname htag hkeep hreg hlist
    rw [deleteImage_keep_eq r c s0 s1 listed hname htag hkeep hreg hlist]
    simp [strategyOf, hsort]
  · intro σ r c s0 s1 listed hsort hname htag hkeep hreg hlist
    rw [deleteImage_keep_eq r c s0 s1 listed hname htag hkeep hreg hlist]
    simp [strategyOf, hsort]

theorem C6_strategy_dispatch_witness :
    getSortComparisonStrategy "foo" = none ∧
    listTagsByImage (countingRegistry ⟨["v10", "v2", "latest"], []⟩ (fun _ => false))
        ⟨"img", "", 0, false, "foo"⟩
      = ⟨[Event.NewRegistry, Event.ListTagsByImage "img", Event.printTag "latest",
          Event.printTag "v2", Event.printTag "v10", Event.printCount 3 "img"],
        Outcome.nil⟩ ∧
    deleteCalls
        (deleteImage (countingRegistry ⟨["v10", "v2", "latest"], []⟩ (fun _ => false))
          ⟨"img", "", 1, false, "foo"⟩).trace
      = [("img", "latest"), ("img", "v2")] :=
  ⟨C6_strategy_dispatch.2.2.1 "foo" (by decide) (by decide),
    (C6_strategy_dispatch.2.2.2.2.2.1 Nat
      (countingRegistry ⟨["v10", "v2", "latest"], []⟩ (fun _ => false))
      ⟨"img", "", 0, false, "foo"⟩ 0 0 ⟨["v10", "v2", "latest"], []⟩
      (by decide) rfl rfl).trans (by decide),
    (congrArg (fun run => deleteCalls run.trace)
      (C6_strategy_dispatch.2.2.2.2.2.2.2.1 Nat
        (countingRegistry ⟨["v10", "v2", "latest"], []⟩ (fun _ => false))
        ⟨"img", "", 1, false, "foo"⟩ 0 0 ⟨["v10", "v2", "latest"], []⟩
        (by decide) (by decide) rfl (by decide) rfl rfl)).trans (by decide)⟩

/-- C10 (the code at the failing input): with no tag and keep = -1 the command
enters the keep branch: it requests the tag listing and evaluates
`tags[:len(tags)+1]`, which panics when the slice has no spare capacity and
otherwise hands every listed tag, and one element past the end, to
`DeleteImageByTag`. -/
theorem C10_negative_keep_enters_keep_branch :
    deleteImage (countingRegistry ⟨["1", "2"], []⟩ (fun _ => false))
        ⟨"img", "", -1, false, ""⟩
      = ⟨[Event.NewRegistry, Event.ListTagsByImage "img"],
          Outcome.panic "slice bounds out of range"⟩ ∧
    deleteCalls (deleteImage (countingRegistry ⟨["1", "2"], [""]⟩ (fun _ => false))
        ⟨"img", "", -1, false, ""⟩).trace
      = [("img", "1"), ("img", "2"), ("img", "")] := by
  decide

/-- C7 (counterexample): `semver.Make` rejects "v1.0.0" and "v2.0.0" (the major
part is not a number), both are compared as `Version{}`, and
less("v1.0.0", "v2.0.0") is false; the arrangement v2.0.0, v1.0.0, latest,
v10.0.0 is not sorted into v1.0.0, v2.0.0, v10.0.0, latest. -/
theorem C7_v_prefixed_tags_compare_equal :
    semverCompareStringNumber "v1.0.0" "v2.0.0" = false ∧
    Compare.Sort semverCompareStringNumber ["v2.0.0", "v1.0.0", "latest", "v10.0.0"]
      ≠ ["v1.0.0", "v2.0.0", "v10.0.0", "latest"] := by
  decide

/-- C7 (amended): sorting any arrangement of the four tags "1.0.0", "2.0.0",
"10.0.0" and "latest" under the semver comparator yields 1.0.0, 2.0.0, 10.0.0,
latest, and less("1.0.0", "2.0.0") and less("2.0.0", "10.0.0") are true; the tags
"v1.0.0", "v2.0.0" and "v10.0.0" are rejected by `semver.Make`, less is false
between any two of them, and sorting any arrangement of them with "latest"
leaves "latest" last. -/
theorem C7_semver_sort_of_plain_versions :
    getSortComparisonStrategy "semver" = some semverCompareStringNumber ∧
    (∀ l : List String, l.Perm ["1.0.0", "2.0.0", "10.0.0", "latest"] →
      Compare.Sort semverCompareStringNumber l = ["1.0.0", "2.0.0", "10.0.0", "latest"]) ∧
    semverCompareStringNumber "1.0.0" "2.0.0" = true ∧
    semverCompareStringNumber "2.0.0" "10.0.0" = true ∧
    (∀ a ∈ ["v1.0.0", "v2.0.0", "v10.0.0"], semver.Make a = none) ∧
    (∀ a ∈ ["v1.0.0", "v2.0.0", "v10.0.0"], ∀ b ∈ ["v1.0.0", "v2.0.0", "v10.0.0"],
      semverCompareStringNumber a b = false) ∧
    (∀ l : List String, l.Perm ["v1.0.0", "v2.0.0", "v10.0.0", "latest"] →
      (Compare.Sort semverCompareStringNumber l).getLast? = some "latest") := by
  refine ⟨by simp [getSortComparisonStrategy], ?_, by decide, by decide, by decide,
    by decide, ?_⟩
  · intro l hl
    have hmem : l ∈ List.permutations' ["1.0.0", "2.0.0", "10.0.0", "latest"] :=
      List.mem_permutations'.mpr hl
    have hall : ∀ l ∈ List.permutations' ["1.0.0", "2.0.0", "10.0.0", "latest"],
        Compare.Sort semverCompareStringNumber l
          = ["1.0.0", "2.0.0", "10.0.0", "latest"] := by
      decide
    exact hall l hmem
  · intro l hl
    exact Sort_semver_getLast l (hl.mem_iff.mpr (by decide))

theorem C7_semver_sort_of_plain_versions_witness :
    Compare.Sort semverCompareStringNumber ["latest", "10.0.0", "1.0.0", "2.0.0"]
      = ["1.0.0", "2.0.0", "10.0.0", "latest"] :=
  C7_semver_sort_of_plain_versions.2.1 ["latest", "10.0.0", "1.0.0", "2.0.0"]
    (List.mem_permutations'.mp (by decide))

/-- C8: for every tag list that contains "latest", the list sorted under the
semver comparator ends with "latest", whatever the other tags are (and so does
every ascending arrangement of the list); hence in keep mode with the semver
policy, keep ≥ 1 and at most one "latest" among the listed tags, "latest" is
neither deleted nor reported for deletion. -/
theorem C8_latest_sorts_last_and_is_kept :
    (∀ tags : List String, "latest" ∈ tags →
      (Compare.Sort semverCompareStringNumber tags).getLast? = some "latest") ∧
    (∀ tags out : List String, out.Perm tags →
      Ascending semverCompareStringNumber out → "latest" ∈ tags →
      out.getLast? = some "latest") ∧
    (∀ (σ : Type) (r : Registry σ) (c : Context) (s0 s1 : σ) (listed : Slice),
      c.name ≠ "" → c.tag = "" → c.sort = "semver" → 1 ≤ c.keep →
      r.NewRegistry = Except.ok s0 →
      r.ListTagsByImage s0 c.name = (s1, listed, none) →
      listed.elems.count "latest" ≤ 1 →
      ∀ image : String,
        (image, "latest") ∉ deleteCalls (deleteImage r c).trace ∧
        (image, "latest") ∉ dryRunReports (deleteImage r c).trace) := by
  refine ⟨Sort_semver_getLast, ascending_semver_getLast, ?_⟩
  intro σ r c s0 s1 listed hname htag hsort hkeep hreg hlist hcount image
  have hkeep2 : 0 < c.keep := by omega
  have hstr : strategyOf c.sort = semverCompareStringNumber := by
    simp [strategyOf, hsort]
  have hnot : "latest" ∉ (Compare.Sort semverCompareStringNumber listed.elems).take
      (listed.elems.length - c.keep.toNat) := by
    apply latest_not_in_taken listed.elems _ hcount
    by_cases h0 : listed.elems.length = 0
    · right
      rw [List.length_eq_zero.mp h0]
      simp
    · left
      omega
  rw [deleteImage_keep_eq r c s0 s1 listed hname htag hkeep2 hreg hlist, hstr]
  simp only [List.cons_append, List.nil_append, deleteCalls_keep_head,
    dryRunReports_keep_head]
  by_cases hle : c.keep ≤ (listed.elems.length : Int)
  · rw [if_pos hle]
    cases c.dryRun
    · rw [deleteCalls_loop_real, dryRunReports_loop_real]
      constructor
      · intro hmem
        rcases List.mem_map.mp hmem with ⟨t, ht, heq⟩
        have ht2 : t = "latest" := (Prod.mk.inj heq).2
        exact hnot (ht2 ▸ ht)
      · simp
    · rw [deleteCalls_loop_dry, dryRunReports_loop_dry]
      constructor
      · simp
      · intro hmem
        rcases List.mem_map.mp hmem with ⟨t, ht, heq⟩
        have ht2 : t = "latest" := (Prod.mk.inj heq).2
        exact hnot (ht2 ▸ ht)
  · rw [if_neg hle]
    simp [deleteCalls, dryRunReports]

theorem C8_latest_sorts_last_and_is_kept_witness :
    (Compare.Sort semverCompareStringNumber ["latest", "not-a-version", "1.2.3"]).getLast?
      = some "latest" ∧
    ("img", "latest") ∉ deleteCalls
      (deleteImage (countingRegistry ⟨["latest", "2.0.0", "1.0.0"], []⟩ (fun _ => false))
        ⟨"img", "", 1, false, "semver"⟩).trace :=
  ⟨C8_latest_sorts_last_and_is_kept.1 ["latest", "not-a-version", "1.2.3"] (by decide),
    (C8_latest_sorts_last_and_is_kept.2.2 Nat
      (countingRegistry ⟨["latest", "2.0.0", "1.0.0"], []⟩ (fun _ => false))
      ⟨"img", "", 1, false, "semver"⟩ 0 0 ⟨["latest", "2.0.0", "1.0.0"], []⟩
      (by decide) rfl rfl (by decide) rfl rfl (by decide) "img").1⟩

/-- C9: the comparator returned for "default" satisfies less(a, b) exactly when
the number extracted from a is below the number extracted from b; the number
extracted is the value of the first contiguous run of decimal digits and 0 when
the tag has no digit; "latest" is not special-cased (it extracts to 0), and
sorting v1, v2, latest, v10 gives latest, v1, v2, v10. -/
theorem C9_default_comparator_compares_extracted_numbers :
    (∃ less : Compare, getSortComparisonStrategy "default" = some less ∧
      ∀ a b : String,
        less a b = true ↔ extractNumberFromString a < extractNumberFromString b) ∧
    (∀ pre run rest : List Char, (∀ ch ∈ pre, ch ∉ semver.numbers) → run ≠ [] →
      (∀ ch ∈ run, ch ∈ semver.numbers) →
      (∀ ch, rest.head? = some ch → ch ∉ semver.numbers) →
      extractNumberFromString (String.mk (pre ++ run ++ rest)) = semver.digitsValue run) ∧
    (∀ str : String, (∀ ch ∈ str.toList, ch ∉ semver.numbers) →
      extractNumberFromString str = 0) ∧
    ["v1", "v2", "latest", "v10"].map extractNumberFromString = [1, 2, 0, 10] ∧
    defaultCompareStringNumber "latest" "v1" = true ∧
    Compare.Sort defaultCompareStringNumber ["v1", "v2", "latest", "v10"]
      = ["latest", "v1", "v2", "v10"] := by
  refine ⟨⟨defaultCompareStringNumber, by simp [getSortComparisonStrategy], ?_⟩,
    extractNumberFromString_run, extractNumberFromString_no_digit, by decide, by decide,
    by decide⟩
  intro a b
  simp [defaultCompareStringNumber]

theorem C9_default_comparator_compares_extracted_numbers_witness :
    extractNumberFromString "latest" = 0 ∧
    extractNumberFromString (String.mk ("build-".toList ++ "42".toList ++ "-rc7".toList))
      = semver.digitsValue "42".toList :=
  ⟨C9_default_comparator_compares_extracted_numbers.2.2.1 "latest" (by decide),
    C9_default_comparator_compares_extracted_numbers.2.1
      "build-".toList "42".toList "-rc7".toList (by decide) (by decide) (by decide)
      (by decide)⟩

end NexusCli
